import Mathlib

/-!
# command-helper: tokenizing and dispatch

A shallow embedding of `helper.go` (the flag-based dispatcher) together with
`HelpError` from `bot.go`, and theorems about `findArgs`, `groupArgs` and
`MessageHandler`.

Go strings are modelled as lists of characters (`Str`), the code points of a
valid UTF-8 string.  A Go slice that may be `nil` is an `Option (List _)` with
`none` for `nil`; a Go `error` is an `Option Str` with `none` for `nil`.  A
run-time panic of `findArgs` or `groupArgs` is `Except.error`; a run of a
handler is an `Outcome`: the messages it sent and the actions it invoked, in
order, and how it ended.
-/

namespace CommandHelper

/-- A Go string, as its sequence of code points. -/
abbrev Str := List Char

/-- The backquote character, U+0060. -/
def backquote : Char := Char.ofNat 96

/-- Go's `unicode.IsSpace`: the white space characters that `strings.Fields`
splits on. -/
def isSpace (c : Char) : Bool :=
  let n := c.toNat
  (9 ≤ n && n ≤ 13) || n == 32 || n == 0x85 || n == 0xA0 || n == 0x1680 ||
  (0x2000 ≤ n && n ≤ 0x200A) || n == 0x2028 || n == 0x2029 || n == 0x202F ||
  n == 0x205F || n == 0x3000

/-- Go's `strings.HasPrefix`. -/
def HasPrefix (s p : Str) : Bool := p.isPrefixOf s

/-- Go's `strings.HasSuffix`. -/
def HasSuffix (s p : Str) : Bool := p.reverse.isPrefixOf s.reverse

/-- Go's `strings.TrimPrefix`: `s` without the leading `p`, or `s` itself
when `s` does not start with `p`. -/
def TrimPrefix (s p : Str) : Str :=
  if HasPrefix s p then s.drop p.length else s

/-- Go's `strings.TrimSuffix`: `s` without the trailing `p`, or `s` itself
when `s` does not end with `p`. -/
def TrimSuffix (s p : Str) : Str :=
  if HasSuffix s p then s.take (s.length - p.length) else s

/-- The scanning loop of Go's `strings.Fields`: `cur` holds, reversed, the
characters of the field being read (the text from `fieldStart` to `i`). -/
def fieldsAux : Str → Str → List Str
  | cur, [] => if cur.isEmpty then [] else [cur.reverse]
  | cur, c :: cs =>
    if isSpace c then
      if cur.isEmpty then fieldsAux [] cs else cur.reverse :: fieldsAux [] cs
    else fieldsAux (c :: cur) cs

/-- Go's `strings.Fields`: the maximal runs of non-space characters of `s`,
in order.  The Go function always returns a non-nil slice. -/
def Fields (s : Str) : List Str := fieldsAux [] s

/-- Go's `strings.Join`. -/
def Join : List Str → Str → Str
  | [], _ => []
  | [x], _ => x
  | x :: y :: rest, sep => x ++ sep ++ Join (y :: rest) sep

deriving instance DecidableEq for Except

/-- The two results `([]string, error)` of `findArgs` and `groupArgs`. -/
structure ArgsResult where
  argv : Option (List Str)
  err : Option Str
  deriving DecidableEq, Repr

/-- The local variables of the loop of `groupArgs`. -/
structure GroupState where
  grouped : Bool
  group : Str
  argv : List Str
  deriving DecidableEq, Repr

/-- One iteration of the loop of `groupArgs` (helper.go, lines 183-200). -/
def groupStep (st : GroupState) (arg : Str) : GroupState :=
  let opens := !st.grouped && decide (arg ≠ TrimPrefix arg "`".toList)
  let grouped₁ := if opens then true else st.grouped
  let arg₁ := if opens then TrimPrefix arg "`".toList else arg
  let closes := grouped₁ && decide (arg₁ ≠ TrimSuffix arg₁ "`".toList)
  let grouped₂ := if closes then false else grouped₁
  let arg₂ := if closes then TrimSuffix arg₁ "`".toList else arg₁
  let group := st.group ++ arg₂
  if grouped₂ then
    { grouped := grouped₂, group := group ++ " ".toList, argv := st.argv }
  else
    { grouped := grouped₂, group := [], argv := st.argv ++ [group] }

/-- The error text of `groupArgs` for a group that is never closed. -/
def errMismatched : Str := "mismatched backquotes ``(`)``".toList

/-- The error text of `findArgs` for an input without fields. -/
def errNoCommand : Str := "no command specified".toList

/-- The run-time panic of `fields[0]` on an empty slice. -/
def panicIndex : Str := "runtime error: index out of range [0] with length 0".toList

/-- The function `groupArgs` of helper.go: arguments may contain spaces when
surrounded by backquotes.  `Except.error` is the panic of `fields[0]`. -/
def groupArgs (fields : List Str) : Except Str ArgsResult :=
  match fields with
  | [] => .error panicIndex
  | f0 :: rest =>
    let st := rest.foldl groupStep { grouped := false, group := [], argv := [f0] }
    if st.grouped then .ok { argv := none, err := some errMismatched }
    else .ok { argv := some st.argv, err := none }

/-- The loop of `findArgs` (helper.go, lines 158-165): the fields of the text
behind the first prefix that `TrimPrefix` removes, or `nil`. -/
def findFields (text : Str) : List Str → Option (List Str)
  | [] => none
  | p :: ps =>
    let trimmed := TrimPrefix text p
    if trimmed ≠ text then some (Fields trimmed) else findFields text ps

/-- The function `findArgs` of helper.go. -/
def findArgs (text : Str) (prefixes : List Str) : Except Str ArgsResult :=
  match findFields text prefixes with
  | none => .ok { argv := none, err := none }
  | some fields =>
    if fields.length = 0 then .ok { argv := none, err := some errNoCommand }
    else groupArgs fields

/-! ## The `flag` package, as far as `helper.go` uses it -/

/-- Go's `flag.ErrorHandling`; `ContinueOnError` is the zero value. -/
inductive ErrorHandling where
  | ContinueOnError
  | ExitOnError
  | PanicOnError
  deriving DecidableEq, Repr

/-- A declared flag (Go's `flag.Flag`).  Its `flag.Value` is given by
`IsBoolFlag` and by `Set`, which returns the error of setting the flag from a
string (`none` for `nil`).  `detail` is what `PrintDefaults` prints for the
flag between `  -Name` and the closing newline (type name, usage text and
default, which depend on the Go type of the value). -/
structure Flag where
  Name : Str
  IsBoolFlag : Bool
  Set : Str → Option Str
  detail : Str

/-- Go's `flag.FlagSet`: its name, its declared flags and its error handling.
The zero value has no name, no flags and `ContinueOnError`. -/
structure FlagSet where
  name : Str
  formal : List Flag
  errorHandling : ErrorHandling

/-- The errors of `FlagSet.Parse`. -/
inductive FlagError where
  | ErrHelp
  | badSyntax (s : Str)
  | notDefined (name : Str)
  | invalidBoolValue (value name err : Str)
  | invalidBoolFlag (name err : Str)
  | needsArgument (name : Str)
  | invalidValue (value name err : Str)
  deriving DecidableEq, Repr

/-- The text of a flag after its minus signs, split at its first `=` (which
cannot be the first character): the name, and the value when there is one. -/
def splitValue : Str → Str × Option Str
  | [] => ([], none)
  | c :: cs =>
    match cs.span (fun d => d != Char.ofNat 61) with
    | (name, []) => (c :: name, none)
    | (name, _ :: value) => (c :: name, some value)

/-- What one call of `parseOne` does with the first argument `s`. -/
inductive ParseStep where
  | stop (err : Option FlagError) (args : List Str)
  | seen (tookNext : Bool)
  deriving DecidableEq, Repr

/-- Go's `FlagSet.parseOne` on the arguments `s :: rest`: it stops the loop
(with or without an error, leaving `args` as the positional arguments), or it
has seen a flag, which took the next argument as its value or not. -/
def FlagSet.parseOne (f : FlagSet) (s : Str) (rest : List Str) : ParseStep :=
  let minus := Char.ofNat 45
  if s.length < 2 ∨ s.head? ≠ some minus then .stop none (s :: rest)
  else
    let two := decide (s.tail.head? = some minus)
    if two ∧ s.length = 2 then .stop none rest
    else
      let name := s.drop (if two then 2 else 1)
      if name = [] ∨ name.head? = some minus ∨ name.head? = some (Char.ofNat 61) then
        .stop (some (.badSyntax s)) (s :: rest)
      else
        let (name, value) := splitValue name
        match f.formal.find? (fun fl => fl.Name = name) with
        | none =>
          if name = "help".toList ∨ name = "h".toList then .stop (some .ErrHelp) rest
          else .stop (some (.notDefined name)) rest
        | some fl =>
          if fl.IsBoolFlag then
            match value with
            | some v =>
              match fl.Set v with
              | some e => .stop (some (.invalidBoolValue v name e)) rest
              | none => .seen false
            | none =>
              match fl.Set "true".toList with
              | some e => .stop (some (.invalidBoolFlag name e)) rest
              | none => .seen false
          else
            match value, rest with
            | some v, _ =>
              match fl.Set v with
              | some e => .stop (some (.invalidValue v name e)) rest
              | none => .seen false
            | none, [] => .stop (some (.needsArgument name)) rest
            | none, v :: rest₁ =>
              match fl.Set v with
              | some e => .stop (some (.invalidValue v name e)) rest₁
              | none => .seen true

/-- The loop of Go's `FlagSet.Parse`: the error of the first failing
`parseOne` (or `nil`) and the arguments left over, which `Args()` returns. -/
def FlagSet.parseLoop (f : FlagSet) : List Str → Option FlagError × List Str
  | [] => (none, [])
  | s :: rest =>
    match f.parseOne s rest with
    | .stop e args => (e, args)
    | .seen false => f.parseLoop rest
    | .seen true =>
      match rest with
      | [] => (none, [])
      | _ :: rest₁ => f.parseLoop rest₁

/-- The value a panic carries: an error text, or an error of `Parse`. -/
inductive PanicValue where
  | text (s : Str)
  | flag (e : FlagError)
  deriving DecidableEq, Repr

/-- How a call ends. -/
inductive Termination where
  | returned
  | panicked (value : PanicValue)
  | exited (code : Nat)
  deriving DecidableEq, Repr

/-- The result of `FlagSet.Parse`: the returned error and the arguments left
for `Args()`, or the end of the program under `ExitOnError` (status 0 for
`ErrHelp`, else 2) and `PanicOnError`. -/
inductive ParseOutcome where
  | returned (err : Option FlagError) (args : List Str)
  | exited (code : Nat)
  | panicked (err : FlagError)
  deriving DecidableEq, Repr

/-- Go's `FlagSet.Parse`. -/
def FlagSet.Parse (f : FlagSet) (arguments : List Str) : ParseOutcome :=
  match f.parseLoop arguments with
  | (none, args) => .returned none args
  | (some e, args) =>
    match f.errorHandling with
    | .ContinueOnError => .returned (some e) args
    | .ExitOnError => if e = .ErrHelp then .exited 0 else .exited 2
    | .PanicOnError => .panicked e

/-- Go's `FlagSet.PrintDefaults`: one entry per declared flag, in
lexicographical order of the names. -/
def FlagSet.PrintDefaults (f : FlagSet) : Str :=
  ((f.formal.insertionSort (fun a b => a.Name ≤ b.Name)).map
    (fun fl => "  -".toList ++ fl.Name ++ fl.detail ++ "\n".toList)).flatten

/-- The function `help` of helper.go. -/
def help (flags : FlagSet) : Str :=
  if flags.PrintDefaults.length > 0 then flags.PrintDefaults
  else "  No options defined.".toList

/-! ## Bots, commands and the session -/

/-- A `discordgo.User`. -/
structure User where
  ID : Str
  Username : Str
  deriving DecidableEq, Repr

/-- The method `User.Mention` of discordgo: `<@ID>`. -/
def User.Mention (u : User) : Str := "<@".toList ++ u.ID ++ ">".toList

/-- A `discordgo.Session`, reduced to `s.State.User`. -/
structure Session where
  User : User
  deriving DecidableEq, Repr

/-- A `discordgo.Message`. -/
structure Message where
  ChannelID : Str
  Content : Str
  Author : User
  deriving DecidableEq, Repr

/-- What running an action does: the `(channel, text)` messages it sends and
the error it returns. -/
structure ActionResult where
  sent : List (Str × Str)
  err : Option Str
  deriving DecidableEq, Repr

/-- The value of a command's `Action` field: the bundled `HelpAction`, or a
function supplied by the user.  A user function is given by what it does for
the arguments, session and message; its `Bot` argument is the handler's own
bot, which a call of `MessageHandler` does not change. -/
inductive Action where
  | HelpAction
  | func (f : List Str → Session → Message → ActionResult)

/-- The struct `Command` of helper.go. -/
structure Command where
  Usage : Str
  Description : Str
  Flags : FlagSet
  Action : Action

/-- The struct `Bot` of helper.go.  The map `Commands` is a list of pairs with
distinct keys, in the order in which `range` visits it. -/
structure Bot where
  Name : Str
  Description : Str
  Commands : List (Str × Command)
  prefix_ : Str
  initialized : Bool

/-- The map lookup `bot.Commands[name]`. -/
def Bot.lookup (bot : Bot) (name : Str) : Option Command :=
  (bot.Commands.find? (fun kv => kv.1 = name)).map (fun kv => kv.2)

/-- The format verb `%-12s`: the string, padded with spaces on the right to
twelve characters. -/
def padRight12 (s : Str) : Str := s ++ List.replicate (12 - s.length) (Char.ofNat 32)

/-- The method `Bot.Help`: the global help menu. -/
def Bot.Help (bot : Bot) : Str :=
  let allCommands := (bot.Commands.map (fun kv =>
    "\n  ".toList ++ padRight12 kv.1 ++ " ".toList ++ kv.2.Description)).flatten
  "\nShowing help for ".toList ++ bot.Name ++ ":\n```\nDESCRIPTION:\n  ".toList ++
    bot.Description ++ "\n\nUSAGE:\n  ".toList ++ bot.prefix_ ++
    "subcommand [arguments]\n\nCOMMANDS:".toList ++ allCommands ++ "\n```".toList

/-- The text `command not found` of `MessageHandler` and `Usage`. -/
def notFound (name : Str) : Str := "command not found: `".toList ++ name ++ "`".toList

/-- The method `Bot.Usage` of helper.go: the help menu of one command. -/
def Bot.Usage (bot : Bot) (commandName : Str) : Str :=
  match bot.lookup commandName with
  | none => notFound commandName
  | some command =>
    "\nShowing usage for subcommand:\n```\nDESCRIPTION:\n  ".toList ++
      command.Description ++ "\n\nUSAGE:\n  ".toList ++ (bot.prefix_ ++ commandName) ++
      " [options] ".toList ++ command.Usage ++ "\n\nOPTIONS:\n".toList ++
      help command.Flags ++ "```".toList

/-- The function `HelpAction` of helper.go. -/
def HelpAction (bot : Bot) (args : List Str) (_s : Session) (m : Message) : ActionResult :=
  match args with
  | [] => { sent := [(m.ChannelID, bot.Help)], err := none }
  | a :: _ => { sent := [(m.ChannelID, bot.Usage a)], err := none }

/-- The call `command.Action(*bot, args, s, m.Message)`. -/
def Action.run (a : Action) (bot : Bot) (args : List Str) (s : Session) (m : Message) :
    ActionResult :=
  match a with
  | .HelpAction => CommandHelper.HelpAction bot args s m
  | .func f => f args s m

/-- What a handler does that can be seen from outside: a message sent with
`ChannelMessageSend`, or the call of the action of the command `name`. -/
inductive Event where
  | send (channelID text : Str)
  | invoke (name : Str) (args : List Str)
  deriving DecidableEq, Repr

/-- A run of a handler: its events in order, and how it ended. -/
structure Outcome where
  events : List Event
  result : Termination
  deriving DecidableEq, Repr

/-- The value of the panic of `MessageHandler` on a bot that is not ready. -/
def ErrNotInitialized : Str :=
  "bot not yet initialized, use AddHandler on Bot.ReadyHandler".toList

/-- The method `Bot.MessageHandler` of helper.go. -/
def MessageHandler (bot : Bot) (s : Session) (m : Message) : Outcome :=
  if !bot.initialized then { events := [], result := .panicked (.text ErrNotInitialized) }
  else if s.User.ID = m.Author.ID then { events := [], result := .returned }
  else
    match findArgs m.Content [s.User.Mention] with
    | .error v => { events := [], result := .panicked (.text v) }
    | .ok { argv := _, err := some err } =>
      { events := [.send m.ChannelID err], result := .returned }
    | .ok { argv := none, err := none } => { events := [], result := .returned }
    | .ok { argv := some [], err := none } => { events := [], result := .panicked (.text panicIndex) }
    | .ok { argv := some (name :: rest), err := none } =>
      match bot.lookup name with
      | none => { events := [.send m.ChannelID (notFound name)], result := .returned }
      | some command =>
        match command.Flags.Parse rest with
        | .exited code => { events := [], result := .exited code }
        | .panicked e => { events := [], result := .panicked (.flag e) }
        | .returned _ args =>
          let r := command.Action.run bot args s m
          { events := .invoke name args :: r.sent.map (fun ct => .send ct.1 ct.2) ++
              (match r.err with
               | none => []
               | some err => [.send m.ChannelID err]),
            result := .returned }

/-- The method `Bot.HelpError` of bot.go: it sends the error text followed by
the global help menu. -/
def HelpError (bot : Bot) (m : Message) (err : Str) : List Event :=
  [.send m.ChannelID (err ++ bot.Help)]

/-- Go's `FlagSet.Init`: it sets the name and the error handling. -/
def FlagSet.Init (f : FlagSet) (name : Str) (errorHandling : ErrorHandling) : FlagSet :=
  { f with name := name, errorHandling := errorHandling }

/-- The loop of `ReadyHandler` (helper.go, lines 71-73).  The loop variable
`command` is a copy of the map value, and `Init` changes the flag set of that
copy: the result lists the copies as they are at the end of each iteration.
The loop does not write to the map. -/
def initCopies (botPrefix : Str) (commands : List (Str × Command)) : List (Str × Command) :=
  commands.map (fun kv =>
    (kv.1, { kv.2 with
      Flags := kv.2.Flags.Init (botPrefix ++ " ".toList ++ kv.1) .ContinueOnError }))

/-- The method `Bot.ReadyHandler` of helper.go: it sets `prefix` from the user
name of the session and turns `initialized` on.  The copies that its loop
initialises are dropped, so `Commands` stays as it was. -/
def ReadyHandler (bot : Bot) (s : Session) : Bot :=
  let botPrefix := "@".toList ++ s.User.Username ++ " ".toList
  let _copies := initCopies botPrefix bot.Commands
  { bot with prefix_ := botPrefix, initialized := true }

/-- The variable `HelpCommand` of helper.go; its flag set is the zero value. -/
def HelpCommand : Command :=
  { Usage := "[command]".toList
    Description := "prints the help menu or given command's usage".toList
    Flags := { name := [], formal := [], errorHandling := .ContinueOnError }
    Action := .HelpAction }

/-- The function `NewBot` of helper.go: a bot with the bundled `help` command. -/
def NewBot : Bot :=
  { Name := [], Description := [], Commands := [("help".toList, HelpCommand)],
    prefix_ := [], initialized := false }

/-! ## Notions used to state the properties -/

/-- A word: non-empty, free of white space and of backquotes. -/
def isWord (w : Str) : Bool :=
  !w.isEmpty && w.all (fun c => !isSpace c && c != backquote)

/-- The words `before`, `run` and `after` joined by single spaces, with one
backquote right before the first word of `run` and one right after its last
word. -/
def quotedText (before run after : List Str) : Str :=
  Join (before ++ [[backquote] ++ Join run " ".toList ++ [backquote]] ++ after) " ".toList

/-- The fields `run` with a backquote put before the first of them. -/
def openFirst : List Str → List Str
  | [] => []
  | w :: ws => (backquote :: w) :: ws

/-- The fields `run` with a backquote put behind the last of them. -/
def closeLast : List Str → List Str
  | [] => []
  | [w] => [w ++ [backquote]]
  | w :: ws => w :: closeLast ws

/-- The line of the help menu for one command: the format `\n  %-12s %s`. -/
def commandLine (name description : Str) : Str :=
  "\n  ".toList ++ padRight12 name ++ " ".toList ++ description

/-- The lines of the help menu for the commands, in the order in which the
iteration over the map visits them. -/
def commandLines (bot : Bot) : List Str :=
  bot.Commands.map (fun kv => commandLine kv.1 kv.2.Description)

/-- The text of the help menu before the lines of the commands. -/
def helpHeader (bot : Bot) : Str :=
  "\nShowing help for ".toList ++ bot.Name ++ ":\n```\nDESCRIPTION:\n  ".toList ++
    bot.Description ++ "\n\nUSAGE:\n  ".toList ++ bot.prefix_ ++
    "subcommand [arguments]\n\nCOMMANDS:".toList

/-! ## A bot for the examples -/

/-- The session of the examples: the bot user has the id `1` and the name `Bot`,
so its mention is `<@1>`. -/
def exampleSession : Session := { User := { ID := "1".toList, Username := "Bot".toList } }

/-- A user action that sends nothing and returns no error. -/
def quietAction : Action := .func (fun _ _ _ => { sent := [], err := none })

/-- A ready bot with the bundled `help` command and a command `greet` that
declares no flags (its flag set is the zero value). -/
def exampleBot : Bot :=
  { Name := "Bot".toList
    Description := "greets".toList
    Commands :=
      [("help".toList,
          { Usage := "[command]".toList
            Description := "prints the help menu or given command's usage".toList
            Flags := { name := [], formal := [], errorHandling := .ContinueOnError }
            Action := .HelpAction }),
       ("greet".toList,
          { Usage := "name".toList
            Description := "says hello".toList
            Flags := { name := [], formal := [], errorHandling := .ContinueOnError }
            Action := quietAction })]
    prefix_ := "@Bot ".toList
    initialized := true }

/-- A message of the user `2` in the channel `c`. -/
def exampleMessage (content : Str) : Message :=
  { ChannelID := "c".toList, Content := content,
    Author := { ID := "2".toList, Username := "Ann".toList } }

/-- The example bot when the iteration over its map visits `greet` before
`help`: the same commands in the other order. -/
def exampleBotSwapped : Bot := { exampleBot with Commands := exampleBot.Commands.reverse }

/-! ## Characters and trimming -/

theorem bqStr_eq : "`".toList = [backquote] := rfl

theorem spStr_eq : " ".toList = [Char.ofNat 32] := rfl

theorem isSpace_backquote : isSpace backquote = false := by decide

theorem isSpace_sp : isSpace (Char.ofNat 32) = true := by decide

theorem ne_backquote_of_isSpace {c : Char} (h : isSpace c = true) : c ≠ backquote := by
  intro hc
  rw [hc, isSpace_backquote] at h
  exact Bool.noConfusion h

theorem trimPrefix_bq (arg : Str) :
    TrimPrefix arg [backquote] = if arg.head? = some backquote then arg.tail else arg := by
  cases arg with
  | nil => simp [TrimPrefix, HasPrefix]
  | cons a as =>
    by_cases h : a = backquote
    · simp [TrimPrefix, HasPrefix, List.isPrefixOf, h]
    · have h2 : ¬ backquote = a := fun e => h e.symm
      simp [TrimPrefix, HasPrefix, List.isPrefixOf, h, h2]

theorem ne_trimPrefix_bq (arg : Str) :
    arg ≠ TrimPrefix arg [backquote] ↔ arg.head? = some backquote := by
  rw [trimPrefix_bq]
  cases arg with
  | nil => simp
  | cons a as =>
    by_cases h : a = backquote
    · simp [h]
    · simp [h]

theorem trimSuffix_bq (arg : Str) :
    TrimSuffix arg [backquote] = if arg.getLast? = some backquote then arg.dropLast else arg := by
  have hs : HasSuffix arg [backquote] = decide (arg.getLast? = some backquote) := by
    rw [List.getLast?_eq_head?_reverse]
    unfold HasSuffix
    cases arg.reverse with
    | nil => simp
    | cons a as =>
      by_cases h : a = backquote
      · simp [List.isPrefixOf, h]
      · have h2 : ¬ backquote = a := fun e => h e.symm
        simp [List.isPrefixOf, h, h2]
  unfold TrimSuffix
  rw [hs]
  by_cases h : arg.getLast? = some backquote
  · simp [h, List.dropLast_eq_take]
  · simp [h]

theorem ne_trimSuffix_bq (arg : Str) :
    arg ≠ TrimSuffix arg [backquote] ↔ arg.getLast? = some backquote := by
  rw [trimSuffix_bq]
  by_cases h : arg.getLast? = some backquote
  · simp only [h, if_true, iff_true]
    intro e
    have hl := congrArg List.length e
    rw [List.length_dropLast] at hl
    cases arg with
    | nil => simp at h
    | cons a as => simp at hl
  · simp [h]

/-- The loop body of `groupArgs`, with the trimming written out. -/
theorem groupStep_eq (st : GroupState) (arg : Str) :
    groupStep st arg =
      (let opens := !st.grouped && decide (arg.head? = some backquote)
       let arg₁ := if opens then arg.tail else arg
       let closes := (st.grouped || opens) && decide (arg₁.getLast? = some backquote)
       let arg₂ := if closes then arg₁.dropLast else arg₁
       if (st.grouped || opens) && !closes then
         { grouped := true, group := st.group ++ arg₂ ++ [Char.ofNat 32], argv := st.argv }
       else
         { grouped := false, group := [], argv := st.argv ++ [st.group ++ arg₂] }) := by
  have e1 : decide (arg ≠ TrimPrefix arg [backquote]) = decide (arg.head? = some backquote) :=
    decide_eq_decide.mpr (ne_trimPrefix_bq arg)
  have e2 : ∀ a : Str, decide (a ≠ TrimSuffix a [backquote]) =
      decide (a.getLast? = some backquote) :=
    fun a => decide_eq_decide.mpr (ne_trimSuffix_bq a)
  unfold groupStep
  simp only [bqStr_eq, spStr_eq, e1, e2]
  cases hg : st.grouped <;> by_cases ho : arg.head? = some backquote
  · simp only [ho, trimPrefix_bq, if_true, Bool.not_false, Bool.true_and, decide_True,
      Bool.false_or]
    by_cases hc : arg.tail.getLast? = some backquote
    · simp [hc, trimSuffix_bq]
    · simp [hc, trimSuffix_bq]
  · simp [ho]
  · simp only [ho, Bool.not_true, Bool.false_and, Bool.true_and, Bool.true_or]
    by_cases hc : arg.getLast? = some backquote
    · simp [hc, trimSuffix_bq]
    · simp [hc, trimSuffix_bq]
  · simp only [ho, Bool.not_true, Bool.false_and, Bool.true_and, Bool.true_or]
    by_cases hc : arg.getLast? = some backquote
    · simp [hc, trimSuffix_bq]
    · simp [hc, trimSuffix_bq]

theorem head?_ne_of_not_mem {s : Str} (h : backquote ∉ s) : s.head? ≠ some backquote := by
  intro e
  exact h (List.mem_of_mem_head? e)

theorem getLast?_ne_of_not_mem {s : Str} (h : backquote ∉ s) : s.getLast? ≠ some backquote := by
  intro e
  exact h (List.mem_of_getLast?_eq_some e)

theorem groupStep_plain (st : GroupState) (arg : Str) (hg : st.grouped = false)
    (ha : arg.head? ≠ some backquote) :
    groupStep st arg = { grouped := false, group := [], argv := st.argv ++ [st.group ++ arg] } := by
  rw [groupStep_eq]
  simp [hg, ha]

theorem groupStep_open (st : GroupState) (x : Str) (hg : st.grouped = false)
    (hx : x.getLast? ≠ some backquote) :
    groupStep st (backquote :: x) =
      { grouped := true, group := st.group ++ x ++ [Char.ofNat 32], argv := st.argv } := by
  rw [groupStep_eq]
  simp [hg, hx]

theorem groupStep_mid (st : GroupState) (arg : Str) (hg : st.grouped = true)
    (ha : arg.getLast? ≠ some backquote) :
    groupStep st arg =
      { grouped := true, group := st.group ++ arg ++ [Char.ofNat 32], argv := st.argv } := by
  rw [groupStep_eq]
  simp [hg, ha]

theorem groupStep_close (st : GroupState) (y : Str) (hg : st.grouped = true) :
    groupStep st (y ++ [backquote]) =
      { grouped := false, group := [], argv := st.argv ++ [st.group ++ y] } := by
  rw [groupStep_eq]
  simp [hg]

theorem groupStep_both (st : GroupState) (x : Str) (hg : st.grouped = false) :
    groupStep st (backquote :: (x ++ [backquote])) =
      { grouped := false, group := [], argv := st.argv ++ [st.group ++ x] } := by
  rw [groupStep_eq]
  simp [hg]

/-- Outside a group, fields that do not begin with a backquote become tokens. -/
theorem foldl_groupStep_plain (l : List Str) (argv : List Str)
    (h : ∀ a ∈ l, a.head? ≠ some backquote) :
    l.foldl groupStep { grouped := false, group := [], argv := argv } =
      { grouped := false, group := [], argv := argv ++ l } := by
  induction l generalizing argv with
  | nil => simp
  | cons a l ih =>
    rw [List.foldl_cons, groupStep_plain _ _ rfl (h a (List.mem_cons_self a l))]
    simp only [List.nil_append]
    rw [ih _ (fun b hb => h b (List.mem_cons_of_mem a hb))]
    simp

/-- Inside a group, fields that do not end with a backquote leave it open. -/
theorem foldl_groupStep_open (l : List Str) (st : GroupState) (hg : st.grouped = true)
    (h : ∀ a ∈ l, a.getLast? ≠ some backquote) :
    (l.foldl groupStep st).grouped = true := by
  induction l generalizing st with
  | nil => simpa using hg
  | cons a l ih =>
    rw [List.foldl_cons]
    apply ih
    · rw [groupStep_mid _ _ hg (h a (List.mem_cons_self a l))]
    · exact fun b hb => h b (List.mem_cons_of_mem a hb)

theorem ite_argv (c : Prop) [Decidable c] (a b : GroupState) (base : List Str)
    (ha : ∃ e, a.argv = base ++ e) (hb : ∃ e, b.argv = base ++ e) :
    ∃ e, (if c then a else b).argv = base ++ e := by
  split <;> assumption

/-- The loop only ever appends to `argv`. -/
theorem foldl_groupStep_argv (l : List Str) (st : GroupState) :
    ∃ ext, (l.foldl groupStep st).argv = st.argv ++ ext := by
  induction l generalizing st with
  | nil => exact ⟨[], by simp⟩
  | cons a l ih =>
    rw [List.foldl_cons]
    obtain ⟨ext, he⟩ := ih (groupStep st a)
    obtain ⟨e₁, h₁⟩ : ∃ e₁, (groupStep st a).argv = st.argv ++ e₁ := by
      rw [groupStep_eq]
      dsimp only
      refine ite_argv _ _ _ _ ⟨[], by simp⟩ ⟨_, rfl⟩
    exact ⟨e₁ ++ ext, by rw [he, h₁, List.append_assoc]⟩

/-! ## `Fields` -/

theorem fieldsAux_nil (cur : Str) :
    fieldsAux cur [] = if cur = [] then [] else [cur.reverse] := by
  cases cur <;> simp [fieldsAux]

theorem fieldsAux_space (cur : Str) (c : Char) (cs : Str) (h : isSpace c = true) :
    fieldsAux cur (c :: cs) = if cur = [] then Fields cs else cur.reverse :: Fields cs := by
  cases cur <;> simp [fieldsAux, Fields, h]

theorem fieldsAux_char (cur : Str) (c : Char) (cs : Str) (h : isSpace c = false) :
    fieldsAux cur (c :: cs) = fieldsAux (c :: cur) cs := by
  simp [fieldsAux, h]

theorem fieldsAux_ne_nil (cur s : Str) (h : cur ≠ []) : fieldsAux cur s ≠ [] := by
  induction s generalizing cur with
  | nil => simp [fieldsAux_nil, h]
  | cons c cs ih =>
    cases hc : isSpace c
    · rw [fieldsAux_char _ _ _ hc]
      exact ih _ (List.cons_ne_nil _ _)
    · rw [fieldsAux_space _ _ _ hc]
      simp [h]

/-- A text that ends with a character other than white space has a field. -/
theorem fieldsAux_ne_nil_of_getLast (cur s : Str) (hs : s ≠ [])
    (hl : ∀ c, s.getLast? = some c → isSpace c = false) : fieldsAux cur s ≠ [] := by
  induction s generalizing cur with
  | nil => exact absurd rfl hs
  | cons c cs ih =>
    cases hc : isSpace c
    · rw [fieldsAux_char _ _ _ hc]
      exact fieldsAux_ne_nil _ _ (List.cons_ne_nil _ _)
    · have hcs : cs ≠ [] := by
        intro e
        subst e
        have := hl c (by simp)
        rw [hc] at this
        exact Bool.noConfusion this
      rw [fieldsAux_space _ _ _ hc]
      have h2 : Fields cs ≠ [] := by
        apply ih [] hcs
        intro d hd
        apply hl d
        cases cs with
        | nil => exact absurd rfl hcs
        | cons e es => simpa using hd
      by_cases hcur : cur = []
      · simp [hcur, h2]
      · simp [hcur]

/-- A text of white space only has no fields. -/
theorem Fields_spaces (w : Str) (h : ∀ c ∈ w, isSpace c = true) : Fields w = [] := by
  induction w with
  | nil => rfl
  | cons c cs ih =>
    unfold Fields
    rw [fieldsAux_space _ _ _ (h c (List.mem_cons_self c cs))]
    simpa using ih (fun d hd => h d (List.mem_cons_of_mem c hd))

theorem fieldsAux_word (cur w rest : Str) (h : ∀ c ∈ w, isSpace c = false) :
    fieldsAux cur (w ++ rest) = fieldsAux (w.reverse ++ cur) rest := by
  induction w generalizing cur with
  | nil => simp
  | cons c cs ih =>
    rw [List.cons_append, fieldsAux_char _ _ _ (h c (List.mem_cons_self c cs)),
      ih _ (fun d hd => h d (List.mem_cons_of_mem c hd))]
    simp

/-- A non-empty word without white space is its own single field. -/
theorem Fields_word (w : Str) (hw : w ≠ []) (h : ∀ c ∈ w, isSpace c = false) :
    Fields w = [w] := by
  have := fieldsAux_word [] w [] h
  simp only [List.append_nil] at this
  unfold Fields
  rw [this, fieldsAux_nil]
  simp [hw]

theorem fieldsAux_append_space (cur s : Str) (c : Char) (t : Str) (h : isSpace c = true) :
    fieldsAux cur (s ++ c :: t) = fieldsAux cur s ++ Fields t := by
  induction s generalizing cur with
  | nil =>
    rw [List.nil_append, fieldsAux_space _ _ _ h, fieldsAux_nil]
    by_cases hc : cur = [] <;> simp [hc]
  | cons d ds ih =>
    cases hd : isSpace d
    · rw [List.cons_append, fieldsAux_char _ _ _ hd, fieldsAux_char _ _ _ hd, ih]
    · rw [List.cons_append, fieldsAux_space _ _ _ hd, fieldsAux_space _ _ _ hd]
      unfold Fields
      rw [ih]
      by_cases hc : cur = [] <;> simp [hc, Fields]

/-- The fields of two texts separated by a white space character. -/
theorem Fields_append_space (s : Str) (c : Char) (t : Str) (h : isSpace c = true) :
    Fields (s ++ c :: t) = Fields s ++ Fields t :=
  fieldsAux_append_space [] s c t h

/-- White space holds no backquote, so the fields hold all backquotes of a text. -/
theorem fieldsAux_count (cur s : Str) :
    ((fieldsAux cur s).map (fun f => f.count backquote)).sum =
      cur.count backquote + s.count backquote := by
  induction s generalizing cur with
  | nil =>
    rw [fieldsAux_nil]
    by_cases hc : cur = [] <;> simp [hc]
  | cons c cs ih =>
    cases hc : isSpace c
    · rw [fieldsAux_char _ _ _ hc, ih, List.count_cons, List.count_cons]
      omega
    · have hne : c ≠ backquote := ne_backquote_of_isSpace hc
      rw [fieldsAux_space _ _ _ hc]
      unfold Fields
      by_cases hcur : cur = []
      · simp [hcur, ih, List.count_cons, hne]
      · simp [hcur, ih, List.count_cons, hne]

/-! ## `Join` -/

theorem Join_cons_of_ne_nil (x : Str) (l : List Str) (sep : Str) (h : l ≠ []) :
    Join (x :: l) sep = x ++ sep ++ Join l sep := by
  cases l with
  | nil => exact absurd rfl h
  | cons y rest => rfl

theorem Join_single (x sep : Str) : Join [x] sep = x := rfl

/-! ## The loop of `groupArgs` over the fields of a backquoted text -/

theorem getLast?_cons_of_ne_nil (c : Char) (cs : Str) (h : cs ≠ []) :
    (c :: cs).getLast? = cs.getLast? := by
  cases cs with
  | nil => exact absurd rfl h
  | cons d ds => simp

theorem tail_ne_nil_of_space (c : Char) (cs : Str) (hc : isSpace c = true)
    (hl : ∀ d, (c :: cs).getLast? = some d → isSpace d = false) : cs ≠ [] := by
  intro e
  subst e
  have := hl c (by simp)
  rw [hc] at this
  exact Bool.noConfusion this

/-- Inside a group: the fields of a text without backquotes, followed by the
closing backquote, are added to the group and the group becomes one token. -/
theorem foldl_groupStep_closing (t : Str) (cur g : Str) (argv : List Str)
    (ht : backquote ∉ t) (hcur : backquote ∉ cur)
    (hl : ∀ c, t.getLast? = some c → isSpace c = false) :
    (fieldsAux cur (t ++ [backquote])).foldl groupStep
        { grouped := true, group := g, argv := argv } =
      { grouped := false, group := [],
        argv := argv ++ [g ++ Join (fieldsAux cur t) [Char.ofNat 32]] } := by
  induction t generalizing cur g with
  | nil =>
    rw [List.nil_append, fieldsAux_char _ _ _ isSpace_backquote, fieldsAux_nil, fieldsAux_nil]
    simp only [List.cons_ne_nil, if_false, List.reverse_cons, List.foldl_cons, List.foldl_nil]
    rw [groupStep_close _ _ rfl]
    by_cases hc : cur = []
    · simp [hc, Join]
    · simp [hc, Join]
  | cons c cs ih =>
    have hcs : backquote ∉ cs := fun h => ht (List.mem_cons_of_mem c h)
    cases hc : isSpace c
    · rw [List.cons_append, fieldsAux_char _ _ _ hc, fieldsAux_char _ _ _ hc]
      apply ih _ _ hcs
      · intro h
        rcases List.mem_cons.mp h with h | h
        · exact ht (h ▸ List.mem_cons_self c cs)
        · exact hcur h
      · intro d hd
        apply hl d
        cases cs with
        | nil => simp at hd
        | cons e es => simpa using hd
    · have hne : cs ≠ [] := tail_ne_nil_of_space c cs hc hl
      have hl2 : ∀ d, cs.getLast? = some d → isSpace d = false := by
        intro d hd
        exact hl d (by rw [getLast?_cons_of_ne_nil c cs hne]; exact hd)
      have hf : fieldsAux [] cs ≠ [] := fieldsAux_ne_nil_of_getLast [] cs hne hl2
      rw [List.cons_append, fieldsAux_space _ _ _ hc, fieldsAux_space _ _ _ hc]
      by_cases hcu : cur = []
      · simp only [hcu, if_true]
        exact ih [] g hcs (by simp) hl2
      · simp only [hcu, if_false, List.foldl_cons]
        rw [groupStep_mid _ _ rfl (getLast?_ne_of_not_mem (by simpa using hcur))]
        have := ih [] (g ++ cur.reverse ++ [Char.ofNat 32]) hcs (by simp) hl2
        unfold Fields
        rw [this, Join_cons_of_ne_nil _ _ _ hf]
        simp [Fields]

/-- Outside a group: the fields of a text without backquotes that is wrapped
in backquotes become one token, the fields joined by single spaces. -/
theorem foldl_groupStep_wrapped (t : Str) (w : Str) (argv : List Str)
    (ht : backquote ∉ t) (hw : backquote ∉ w)
    (hl : ∀ c, t.getLast? = some c → isSpace c = false)
    (hh : w = [] → ∀ c, t.head? = some c → isSpace c = false) :
    (fieldsAux (w ++ [backquote]) (t ++ [backquote])).foldl groupStep
        { grouped := false, group := [], argv := argv } =
      { grouped := false, group := [],
        argv := argv ++ [Join (fieldsAux w t) [Char.ofNat 32]] } := by
  induction t generalizing w with
  | nil =>
    rw [List.nil_append, fieldsAux_char _ _ _ isSpace_backquote, fieldsAux_nil, fieldsAux_nil]
    simp only [List.cons_ne_nil, if_false, List.reverse_cons, List.reverse_append,
      List.reverse_nil, List.nil_append, List.singleton_append, List.foldl_cons, List.foldl_nil]
    rw [show backquote :: w.reverse ++ [backquote] = backquote :: (w.reverse ++ [backquote])
      from rfl, groupStep_both _ _ rfl]
    by_cases hc : w = []
    · simp [hc, Join]
    · simp [hc, Join]
  | cons c cs ih =>
    have hcs : backquote ∉ cs := fun h => ht (List.mem_cons_of_mem c h)
    cases hc : isSpace c
    · rw [List.cons_append, fieldsAux_char _ _ _ hc, fieldsAux_char _ _ _ hc]
      apply ih (c :: w) hcs
      · intro h
        rcases List.mem_cons.mp h with h | h
        · exact ht (h ▸ List.mem_cons_self c cs)
        · exact hw h
      · intro d hd
        apply hl d
        cases cs with
        | nil => simp at hd
        | cons e es => simpa using hd
      · intro h
        exact absurd h (List.cons_ne_nil _ _)
    · have hne : cs ≠ [] := tail_ne_nil_of_space c cs hc hl
      have hl2 : ∀ d, cs.getLast? = some d → isSpace d = false := by
        intro d hd
        exact hl d (by rw [getLast?_cons_of_ne_nil c cs hne]; exact hd)
      have hf : fieldsAux [] cs ≠ [] := fieldsAux_ne_nil_of_getLast [] cs hne hl2
      have hwn : w ≠ [] := by
        intro e
        have := hh e c (by simp)
        rw [hc] at this
        exact Bool.noConfusion this
      rw [List.cons_append, fieldsAux_space _ _ _ hc, fieldsAux_space _ _ _ hc]
      simp only [hwn, List.append_eq_nil, List.cons_ne_nil, and_false, if_false,
        List.reverse_append, List.reverse_cons, List.reverse_nil, List.nil_append,
        List.singleton_append, List.foldl_cons]
      rw [groupStep_open _ _ rfl (getLast?_ne_of_not_mem (by simpa using hw))]
      have := foldl_groupStep_closing cs [] ([] ++ w.reverse ++ [Char.ofNat 32]) argv hcs
        (by simp) hl2
      unfold Fields
      rw [this, Join_cons_of_ne_nil _ _ _ hf]
      simp [Fields]

/-- The tokens of a text without backquotes, wrapped in backquotes, that
neither begins nor ends with white space. -/
theorem foldl_groupStep_quoted (body : Str) (argv : List Str) (hb : backquote ∉ body)
    (hh : ∀ c, body.head? = some c → isSpace c = false)
    (hl : ∀ c, body.getLast? = some c → isSpace c = false) :
    (Fields (backquote :: (body ++ [backquote]))).foldl groupStep
        { grouped := false, group := [], argv := argv } =
      { grouped := false, group := [],
        argv := argv ++ [Join (Fields body) [Char.ofNat 32]] } := by
  unfold Fields
  rw [fieldsAux_char _ _ _ isSpace_backquote]
  exact foldl_groupStep_wrapped body [] argv hb (by simp) hl (fun _ => hh)

/-! ## Words and joined texts -/

theorem isWord_ne_nil {w : Str} (h : isWord w = true) : w ≠ [] := by
  intro e
  subst e
  simp [isWord] at h

theorem isWord_not_space {w : Str} (h : isWord w = true) : ∀ c ∈ w, isSpace c = false := by
  intro c hc
  simp only [isWord, Bool.and_eq_true, List.all_eq_true] at h
  have := h.2 c hc
  simpa using this.1

theorem isWord_no_backquote {w : Str} (h : isWord w = true) : backquote ∉ w := by
  intro hc
  simp only [isWord, Bool.and_eq_true, List.all_eq_true] at h
  have := (h.2 backquote hc).2
  simp at this

theorem Fields_isWord {w : Str} (h : isWord w = true) : Fields w = [w] :=
  Fields_word w (isWord_ne_nil h) (isWord_not_space h)

/-- Splitting a text that was joined with single spaces. -/
theorem Fields_Join (l : List Str) :
    Fields (Join l [Char.ofNat 32]) = (l.map Fields).flatten := by
  induction l with
  | nil => rfl
  | cons x l ih =>
    cases l with
    | nil => simp [Join]
    | cons y rest =>
      rw [Join_cons_of_ne_nil _ _ _ (List.cons_ne_nil _ _), List.append_assoc,
        List.singleton_append, Fields_append_space _ _ _ isSpace_sp, ih]
      simp

theorem flatten_map_Fields_words (l : List Str) (h : ∀ w ∈ l, isWord w = true) :
    (l.map Fields).flatten = l := by
  induction l with
  | nil => rfl
  | cons x l ih =>
    rw [List.map_cons, List.flatten_cons, Fields_isWord (h x (List.mem_cons_self x l)),
      ih (fun w hw => h w (List.mem_cons_of_mem x hw))]
    rfl

theorem Fields_Join_words (l : List Str) (h : ∀ w ∈ l, isWord w = true) :
    Fields (Join l [Char.ofNat 32]) = l := by
  rw [Fields_Join, flatten_map_Fields_words l h]

theorem mem_Join {c : Char} {l : List Str} {sep : Str} (h : c ∈ Join l sep) :
    c ∈ sep ∨ ∃ w ∈ l, c ∈ w := by
  induction l with
  | nil => simp [Join] at h
  | cons x l ih =>
    cases l with
    | nil => exact Or.inr ⟨x, List.mem_cons_self x [], by simpa [Join] using h⟩
    | cons y rest =>
      rw [Join_cons_of_ne_nil _ _ _ (List.cons_ne_nil _ _)] at h
      rcases List.mem_append.mp h with h | h
      · rcases List.mem_append.mp h with h | h
        · exact Or.inr ⟨x, List.mem_cons_self x _, h⟩
        · exact Or.inl h
      · rcases ih h with h | ⟨w, hw, hc⟩
        · exact Or.inl h
        · exact Or.inr ⟨w, List.mem_cons_of_mem x hw, hc⟩

theorem Join_words_no_backquote (l : List Str) (h : ∀ w ∈ l, isWord w = true) :
    backquote ∉ Join l [Char.ofNat 32] := by
  intro hc
  rcases mem_Join hc with hc | ⟨w, hw, hc⟩
  · have := List.mem_singleton.mp hc
    have h2 := isSpace_sp
    rw [← this, isSpace_backquote] at h2
    exact Bool.noConfusion h2
  · exact isWord_no_backquote (h w hw) hc

theorem Join_words_head (l : List Str) (h : ∀ w ∈ l, isWord w = true) :
    ∀ c, (Join l [Char.ofNat 32]).head? = some c → isSpace c = false := by
  intro c hc
  cases l with
  | nil => simp [Join] at hc
  | cons x l =>
    have hx := h x (List.mem_cons_self x l)
    have hh : (Join (x :: l) [Char.ofNat 32]).head? = x.head? := by
      cases l with
      | nil => rfl
      | cons y rest =>
        rw [Join_cons_of_ne_nil _ _ _ (List.cons_ne_nil _ _), List.append_assoc]
        cases x with
        | nil => exact absurd rfl (isWord_ne_nil hx)
        | cons a as => rfl
    rw [hh] at hc
    exact isWord_not_space hx c (List.mem_of_mem_head? hc)

theorem Join_words_getLast (l : List Str) (h : ∀ w ∈ l, isWord w = true) :
    ∀ c, (Join l [Char.ofNat 32]).getLast? = some c → isSpace c = false := by
  induction l with
  | nil =>
    intro c hc
    simp [Join] at hc
  | cons x l ih =>
    intro c hc
    cases l with
    | nil =>
      exact isWord_not_space (h x (List.mem_cons_self x [])) c
        (List.mem_of_getLast?_eq_some hc)
    | cons y rest =>
      have hy := h y (List.mem_cons_of_mem x (List.mem_cons_self y rest))
      have hne : Join (y :: rest) [Char.ofNat 32] ≠ [] := by
        cases rest with
        | nil => exact isWord_ne_nil hy
        | cons z zs =>
          rw [Join_cons_of_ne_nil _ _ _ (List.cons_ne_nil _ _)]
          simp
      rw [Join_cons_of_ne_nil _ _ _ (List.cons_ne_nil _ _),
        List.getLast?_append_of_ne_nil _ hne] at hc
      exact ih (fun w hw => h w (List.mem_cons_of_mem x hw)) c hc

/-! ## `findArgs` behind a single prefix -/

theorem trimPrefix_append (p rest : Str) : TrimPrefix (p ++ rest) p = rest := by
  unfold TrimPrefix HasPrefix
  rw [List.isPrefixOf_iff_prefix.mpr (List.prefix_append p rest)]
  simp

theorem append_ne_right (p rest : Str) (hp : p ≠ []) : rest ≠ p ++ rest := by
  intro e
  have := congrArg List.length e
  rw [List.length_append] at this
  have : p.length = 0 := by omega
  exact hp (List.length_eq_zero.mp this)

/-- Behind a non-empty prefix, `findArgs` tokenizes the rest of the text. -/
theorem findArgs_append (p rest : Str) (hp : p ≠ []) :
    findArgs (p ++ rest) [p] =
      if (Fields rest).length = 0 then .ok { argv := none, err := some errNoCommand }
      else groupArgs (Fields rest) := by
  unfold findArgs findFields
  simp only [trimPrefix_append]
  rw [if_pos (append_ne_right p rest hp)]

theorem groupArgs_cons (f0 : Str) (rest : List Str) (st : GroupState)
    (h : rest.foldl groupStep { grouped := false, group := [], argv := [f0] } = st) :
    groupArgs (f0 :: rest) =
      if st.grouped then .ok { argv := none, err := some errMismatched }
      else .ok { argv := some st.argv, err := none } := by
  subst h
  rfl

/-! ## The tokenizer: `findArgs` and `groupArgs` -/

/-- C1, as stated, fails when the backquoted run begins with the first word:
for the single word `greet`, wrapped in backquotes behind the prefix `@Bot `,
`findArgs` returns the token with both backquotes and not the token `greet`. -/
theorem C1_counterexample :
    findArgs ("@Bot ".toList ++ quotedText [] ["greet".toList] []) ["@Bot ".toList] =
        .ok { argv := some ["`greet`".toList], err := none } ∧
      findArgs ("@Bot ".toList ++ quotedText [] ["greet".toList] []) ["@Bot ".toList] ≠
        .ok { argv := some ([] ++ [Join ["greet".toList] " ".toList] ++ []), err := none } := by
  decide

/-- C1 (amended): for a non-empty prefix `p`, a first word `w0` and words
`pre`, `run` and `post`, all non-empty and free of white space
and backquotes, the text `p` followed by the words joined by single spaces,
with the run (which begins after the first word) wrapped in backquotes,
tokenizes to the words before the run, the run joined by single spaces as one
token without backquotes, and the words after the run. -/
theorem C1_findArgs_quoted_run (p w0 : Str) (pre run post : List Str) (hp : p ≠ [])
    (hw : ∀ w ∈ w0 :: (pre ++ run ++ post), isWord w = true) :
    findArgs (p ++ quotedText (w0 :: pre) run post) [p] =
      .ok { argv := some (w0 :: pre ++ [Join run " ".toList] ++ post), err := none } := by
  have hw0 : isWord w0 = true := hw w0 (List.mem_cons_self _ _)
  have hpre : ∀ w ∈ pre, isWord w = true := fun w h =>
    hw w (List.mem_cons_of_mem _ (List.mem_append_left _ (List.mem_append_left _ h)))
  have hr : ∀ w ∈ run, isWord w = true := fun w h =>
    hw w (List.mem_cons_of_mem _ (List.mem_append_left _ (List.mem_append_right _ h)))
  have hpost : ∀ w ∈ post, isWord w = true := fun w h =>
    hw w (List.mem_cons_of_mem _ (List.mem_append_right _ h))
  have hF : Fields (quotedText (w0 :: pre) run post) =
      w0 :: (pre ++ Fields (backquote :: (Join run [Char.ofNat 32] ++ [backquote])) ++ post) := by
    unfold quotedText
    rw [spStr_eq, Fields_Join]
    simp only [List.map_append, List.flatten_append, List.map_cons, List.map_nil,
      List.flatten_cons, List.flatten_nil, List.append_nil]
    rw [flatten_map_Fields_words pre hpre, flatten_map_Fields_words post hpost,
      Fields_isWord hw0]
    simp
  have hloop : (pre ++ Fields (backquote :: (Join run [Char.ofNat 32] ++ [backquote])) ++
      post).foldl groupStep { grouped := false, group := [], argv := [w0] } =
      { grouped := false, group := [],
        argv := w0 :: pre ++ [Join run [Char.ofNat 32]] ++ post } := by
    rw [List.foldl_append, List.foldl_append,
      foldl_groupStep_plain pre _ (fun a ha => head?_ne_of_not_mem (isWord_no_backquote (hpre a ha))),
      foldl_groupStep_quoted _ _ (Join_words_no_backquote run hr) (Join_words_head run hr)
        (Join_words_getLast run hr),
      foldl_groupStep_plain post _
        (fun a ha => head?_ne_of_not_mem (isWord_no_backquote (hpost a ha))),
      Fields_Join_words run hr]
    simp
  rw [findArgs_append p _ hp, hF, groupArgs_cons _ _ _ hloop, spStr_eq]
  simp

/-- C1, witness: the example of the specification, `@Bot greet` followed by
`John Smith` in backquotes. -/
theorem C1_findArgs_quoted_run_witness :
    "@Bot ".toList ≠ [] ∧
      findArgs "@Bot greet `John Smith`".toList ["@Bot ".toList] =
        .ok { argv := some ["greet".toList, "John Smith".toList], err := none } :=
  ⟨by decide,
    C1_findArgs_quoted_run "@Bot ".toList "greet".toList [] ["John".toList, "Smith".toList] []
      (by decide) (by decide)⟩

/-- C2, as stated, fails: the text `cmd a`b` holds one backquote (an odd
number), and the tokenizer returns its two fields without an error. -/
theorem C2_counterexample :
    ("cmd a`b".toList.count backquote) % 2 = 1 ∧
      findArgs ("@Bot ".toList ++ "cmd a`b".toList) ["@Bot ".toList] =
        .ok { argv := some ["cmd".toList, "a`b".toList], err := none } := by
  decide

/-- C2 (amended): when the text behind a non-empty prefix holds exactly one
backquote, and that backquote is the first character of a field other than the
first, the tokenizer returns the mismatched-backquotes error and no tokens. -/
theorem C2_findArgs_single_backquote (p text f0 : Str) (rest : List Str) (hp : p ≠ [])
    (hcount : text.count backquote = 1) (hfields : Fields text = f0 :: rest)
    (hopen : ∃ f ∈ rest, f.head? = some backquote) :
    findArgs (p ++ text) [p] = .ok { argv := none, err := some errMismatched } := by
  obtain ⟨f, hf, hhead⟩ := hopen
  obtain ⟨pre, post, hsplit⟩ := List.append_of_mem hf
  obtain ⟨x, hx⟩ : ∃ x, f = backquote :: x := by
    cases f with
    | nil => simp at hhead
    | cons a x => exact ⟨x, by simp at hhead; rw [hhead]⟩
  have hsum := fieldsAux_count [] text
  rw [show fieldsAux [] text = Fields text from rfl, hfields, hsplit, hcount, hx] at hsum
  simp only [List.map_cons, List.map_append, List.sum_cons, List.sum_append, List.count_nil,
    List.count_cons_self, Nat.zero_add] at hsum
  have hzero : ∀ l : List Str, (l.map (fun g => g.count backquote)).sum = 0 →
      ∀ a ∈ l, backquote ∉ a := by
    intro l hl a ha
    have h0 := (List.sum_eq_zero_iff.mp hl) (a.count backquote) (List.mem_map_of_mem _ ha)
    exact List.count_eq_zero.mp h0
  have hpre : ∀ a ∈ pre, backquote ∉ a := hzero pre (by omega)
  have hpost : ∀ a ∈ post, backquote ∉ a := hzero post (by omega)
  have hxb : backquote ∉ x := List.count_eq_zero.mp (by omega)
  have hg : ((pre ++ (backquote :: x) :: post).foldl groupStep
      { grouped := false, group := [], argv := [f0] }).grouped = true := by
    rw [List.foldl_append, List.foldl_cons,
      foldl_groupStep_plain pre _ (fun a ha => head?_ne_of_not_mem (hpre a ha)),
      groupStep_open _ _ rfl (getLast?_ne_of_not_mem hxb)]
    exact foldl_groupStep_open post _ rfl (fun a ha => getLast?_ne_of_not_mem (hpost a ha))
  rw [findArgs_append p _ hp, hfields, hsplit, hx, groupArgs_cons _ _ _ rfl, hg]
  simp

/-- C2, witness: the text `cmd `a b` behind the prefix `@Bot `. -/
theorem C2_findArgs_single_backquote_witness :
    "cmd `a b".toList.count backquote = 1 ∧
      findArgs ("@Bot ".toList ++ "cmd `a b".toList) ["@Bot ".toList] =
        .ok { argv := none, err := some errMismatched } :=
  ⟨by decide,
    C2_findArgs_single_backquote "@Bot ".toList "cmd `a b".toList "cmd".toList
      ["`a".toList, "b".toList] (by decide) (by decide) (by decide)
      ⟨"`a".toList, by decide, by decide⟩⟩

/-- C3, as stated, fails: a body with two spaces between its words comes
back with a single space. -/
theorem C3_counterexample :
    findArgs ("@Bot ".toList ++ "greet".toList ++ " `".toList ++ "John  Smith".toList ++
        "`".toList) ["@Bot ".toList] =
      .ok { argv := some ["greet".toList, "John Smith".toList], err := none } ∧
    "John Smith".toList ≠ "John  Smith".toList := by
  decide

/-- C3 (amended): for a non-empty prefix `p`, a command word `c` and a body
without backquotes that neither begins nor ends with white space,
`findArgs(p + c + " `" + body + "`", [p])` returns `c` and one more token: the
white-space-separated fields of the body joined by single spaces.  Each run of
white space inside the body is replaced by one space. -/
theorem C3_findArgs_quoted_body (p c body : Str) (hp : p ≠ []) (hc : isWord c = true)
    (hb : backquote ∉ body) (hh : ∀ a, body.head? = some a → isSpace a = false)
    (hl : ∀ a, body.getLast? = some a → isSpace a = false) :
    findArgs (p ++ c ++ " `".toList ++ body ++ "`".toList) [p] =
      .ok { argv := some [c, Join (Fields body) " ".toList], err := none } := by
  have ht : p ++ c ++ " `".toList ++ body ++ "`".toList =
      p ++ (c ++ Char.ofNat 32 :: (backquote :: (body ++ [backquote]))) := by
    rw [show " `".toList = [Char.ofNat 32, backquote] from rfl, bqStr_eq]
    simp
  rw [ht, findArgs_append p _ hp, Fields_append_space _ _ _ isSpace_sp, Fields_isWord hc,
    List.singleton_append, groupArgs_cons _ _ _ (foldl_groupStep_quoted body [c] hb hh hl),
    spStr_eq]
  simp

/-- C3, witness: a body with a tab and several spaces. -/
theorem C3_findArgs_quoted_body_witness :
    findArgs ("@Bot ".toList ++ "greet".toList ++ " `".toList ++ "John \t  Smith".toList ++
        "`".toList) ["@Bot ".toList] =
      .ok { argv := some ["greet".toList, Join (Fields "John \t  Smith".toList) " ".toList],
            err := none } ∧
    Join (Fields "John \t  Smith".toList) " ".toList = "John Smith".toList :=
  ⟨C3_findArgs_quoted_body "@Bot ".toList "greet".toList "John \t  Smith".toList
      (by decide) (by decide) (by decide) (by decide) (by decide),
    by decide⟩

/-- C4: behind a non-empty prefix, a text of white space only (or no text)
gives the error `no command specified` and no tokens, which differs from the
result for a text that starts with no prefix (nil tokens, nil error). -/
theorem C4_findArgs_no_command (p w : Str) (hp : p ≠ []) (hw : ∀ c ∈ w, isSpace c = true) :
    findArgs (p ++ w) [p] = .ok { argv := none, err := some errNoCommand } ∧
      findArgs (p ++ w) [p] ≠ .ok { argv := none, err := none } := by
  have h : findArgs (p ++ w) [p] = .ok { argv := none, err := some errNoCommand } := by
    rw [findArgs_append p w hp, Fields_spaces w hw]
    rfl
  refine ⟨h, ?_⟩
  rw [h]
  intro e
  injection e with e
  injection e with _ e
  exact Option.noConfusion e

/-- C4, witness: the prefix `@Bot ` followed by a space, a tab and a newline. -/
theorem C4_findArgs_no_command_witness :
    findArgs ("@Bot ".toList ++ " \t\n".toList) ["@Bot ".toList] =
        .ok { argv := none, err := some "no command specified".toList } ∧
      findArgs ("@Bot ".toList ++ " \t\n".toList) ["@Bot ".toList] ≠
        .ok { argv := none, err := none } :=
  C4_findArgs_no_command "@Bot ".toList " \t\n".toList (by decide) (by decide)

/-- C5: when `groupArgs` succeeds on a non-empty field list, its result is
non-empty and begins with the first field, unchanged. -/
theorem C5_groupArgs_keeps_command (f0 : Str) (rest : List Str) (r : ArgsResult)
    (hr : groupArgs (f0 :: rest) = .ok r) (herr : r.err = none) :
    ∃ tokens, r.argv = some (f0 :: tokens) := by
  obtain ⟨ext, hext⟩ := foldl_groupStep_argv rest { grouped := false, group := [], argv := [f0] }
  rw [groupArgs_cons _ _ _ rfl] at hr
  split at hr
  · injection hr with hr
    subst hr
    simp at herr
  · injection hr with hr
    subst hr
    exact ⟨ext, by rw [hext]; rfl⟩

/-- C5, witness: a command name wrapped in backquotes stays as it is. -/
theorem C5_groupArgs_keeps_command_witness :
    groupArgs ["`greet`".toList, "`John".toList, "Smith`".toList] =
        .ok { argv := some ["`greet`".toList, "John Smith".toList], err := none } ∧
      ∃ tokens, (ArgsResult.mk (some ["`greet`".toList, "John Smith".toList]) none).argv =
        some ("`greet`".toList :: tokens) :=
  ⟨by decide,
    C5_groupArgs_keeps_command "`greet`".toList ["`John".toList, "Smith`".toList]
      { argv := some ["`greet`".toList, "John Smith".toList], err := none } (by decide) rfl⟩

theorem findFields_find (text : Str) (prefixes : List Str) (p : Str)
    (hne : ∀ q ∈ prefixes, q ≠ [])
    (hfind : prefixes.find? (fun q => HasPrefix text q) = some p) :
    findFields text prefixes = some (Fields (text.drop p.length)) := by
  induction prefixes with
  | nil => simp at hfind
  | cons q qs ih =>
    unfold findFields
    cases hq : HasPrefix text q
    · have ht : TrimPrefix text q = text := by simp [TrimPrefix, hq]
      simp only [ht, ne_eq, not_true_eq_false, if_false]
      rw [List.find?_cons, hq] at hfind
      exact ih (fun r hr => hne r (List.mem_cons_of_mem q hr)) hfind
    · rw [List.find?_cons, hq] at hfind
      injection hfind with hfind
      subst hfind
      have ht : TrimPrefix text q = text.drop q.length := by simp [TrimPrefix, hq]
      have hpre : q <+: text := List.isPrefixOf_iff_prefix.mp hq
      obtain ⟨t, rfl⟩ := hpre
      have hd : (q ++ t).drop q.length = t := by simp
      simp only [ht, hd]
      rw [if_pos (append_ne_right q t (hne q (List.mem_cons_self q qs)))]

/-- C6: with non-empty prefixes, `findArgs` removes the first prefix of the
list that the text starts with, and tokenizes what follows it: the result is
that of `findArgs` with this prefix alone. -/
theorem C6_findArgs_first_match (text : Str) (prefixes : List Str) (p : Str)
    (hne : ∀ q ∈ prefixes, q ≠ [])
    (hfind : prefixes.find? (fun q => HasPrefix text q) = some p) :
    findArgs text prefixes = findArgs text [p] ∧
      findArgs text prefixes =
        (if (Fields (text.drop p.length)).length = 0 then
          .ok { argv := none, err := some errNoCommand }
        else groupArgs (Fields (text.drop p.length))) := by
  have hp : p ∈ prefixes := List.mem_of_find?_eq_some hfind
  have hpt : HasPrefix text p = true := by simpa using List.find?_some hfind
  have h1 := findFields_find text prefixes p hne hfind
  have h2 := findFields_find text [p] p (fun q hq => by
    rw [List.mem_singleton.mp hq]; exact hne p hp) (by simp [hpt])
  unfold findArgs
  rw [h1, h2]
  exact ⟨rfl, rfl⟩

/-- C6, witness: the shorter prefix `@Bot` comes first and is the one removed,
though the longer `@Bot ` matches too. -/
theorem C6_findArgs_first_match_witness :
    findArgs "@Bot greet".toList ["!".toList, "@Bot".toList, "@Bot ".toList] =
        findArgs "@Bot greet".toList ["@Bot".toList] ∧
      findArgs "@Bot greet".toList ["!".toList, "@Bot".toList, "@Bot ".toList] =
        (if (Fields ("@Bot greet".toList.drop "@Bot".toList.length)).length = 0 then
          .ok { argv := none, err := some errNoCommand }
        else groupArgs (Fields ("@Bot greet".toList.drop "@Bot".toList.length))) :=
  C6_findArgs_first_match "@Bot greet".toList ["!".toList, "@Bot".toList, "@Bot ".toList]
    "@Bot".toList (by decide) (by decide)

/-! ## The dispatcher: `MessageHandler` -/

theorem findFields_none (text : Str) (prefixes : List Str)
    (h : ∀ q ∈ prefixes, HasPrefix text q = false) : findFields text prefixes = none := by
  induction prefixes with
  | nil => rfl
  | cons q qs ih =>
    unfold findFields
    have ht : TrimPrefix text q = text := by
      simp [TrimPrefix, h q (List.mem_cons_self q qs)]
    simp only [ht, ne_eq, not_true_eq_false, if_false]
    exact ih (fun r hr => h r (List.mem_cons_of_mem q hr))

/-- C7: a text that starts with none of the prefixes gives no tokens and no
error; and a ready bot that receives, from another user, a message that does
not start with the mention of the session's user sends nothing and invokes no
action. -/
theorem C7_no_prefix_is_ignored :
    (∀ (text : Str) (prefixes : List Str), (∀ q ∈ prefixes, HasPrefix text q = false) →
        findArgs text prefixes = .ok { argv := none, err := none }) ∧
      (∀ (bot : Bot) (s : Session) (m : Message), bot.initialized = true →
        s.User.ID ≠ m.Author.ID → HasPrefix m.Content s.User.Mention = false →
        MessageHandler bot s m = { events := [], result := .returned }) := by
  have h1 : ∀ (text : Str) (prefixes : List Str), (∀ q ∈ prefixes, HasPrefix text q = false) →
      findArgs text prefixes = .ok { argv := none, err := none } := by
    intro text prefixes h
    unfold findArgs
    rw [findFields_none text prefixes h]
  refine ⟨h1, ?_⟩
  intro bot s m hinit hid hpre
  have hf := h1 m.Content [s.User.Mention] (fun q hq => by
    rw [List.mem_singleton.mp hq]; exact hpre)
  unfold MessageHandler
  simp [hinit, hid, hf]

/-- C7, witness: the text `hello @Bot` with the prefix `@Bot `, and the same
text sent to the example bot. -/
theorem C7_no_prefix_is_ignored_witness :
    findArgs "hello @Bot".toList ["@Bot ".toList] = .ok { argv := none, err := none } ∧
      MessageHandler exampleBot exampleSession (exampleMessage "hello <@1>".toList) =
        { events := [], result := .returned } :=
  ⟨C7_no_prefix_is_ignored.1 "hello @Bot".toList ["@Bot ".toList] (by decide),
    C7_no_prefix_is_ignored.2 exampleBot exampleSession (exampleMessage "hello <@1>".toList)
      (by decide) (by decide) (by decide)⟩

/-- C8, as stated, fails twice.  The content `@Bot unknown` of the claim starts
with the help prefix and not with the mention `<@1>` that `MessageHandler`
matches, so nothing is sent.  And for the content `<@1> unknown` the one reply
is the text `command not found`, with the name in backquotes, and nothing
else: the name does not come right after the colon, and the reply is not the
text followed by the help menu that `HelpError` of bot.go would send. -/
theorem C8_counterexample :
    MessageHandler exampleBot exampleSession (exampleMessage "@Bot unknown".toList) =
        { events := [], result := .returned } ∧
      MessageHandler exampleBot exampleSession (exampleMessage "<@1> unknown".toList) =
        { events := [.send "c".toList "command not found: `unknown`".toList],
          result := .returned } ∧
      ¬ ("command not found: unknown".toList <:+: "command not found: `unknown`".toList) ∧
      MessageHandler exampleBot exampleSession (exampleMessage "<@1> unknown".toList) ≠
        { events := HelpError exampleBot (exampleMessage "<@1> unknown".toList)
            "command not found: `unknown`".toList,
          result := .returned } := by
  decide

/-- C8 (amended): when a ready bot receives, from another user, a message that
tokenizes behind the mention of the session's user and whose first token
`name` is not a key of `bot.Commands`, `MessageHandler` sends exactly one
message, to the channel of the message, with the text `command not found: `
followed by `name` in backquotes, and invokes no action. -/
theorem C8_unknown_command_reply (bot : Bot) (s : Session) (m : Message) (name : Str)
    (rest : List Str) (hinit : bot.initialized = true) (hid : s.User.ID ≠ m.Author.ID)
    (hargs : findArgs m.Content [s.User.Mention] =
      .ok { argv := some (name :: rest), err := none })
    (hmiss : bot.lookup name = none) :
    MessageHandler bot s m =
      { events := [.send m.ChannelID ("command not found: `".toList ++ name ++ "`".toList)],
        result := .returned } := by
  unfold MessageHandler
  simp [hinit, hid, hargs, hmiss, notFound]

/-- C8, witness: the content `<@1> unknown` sent to the example bot. -/
theorem C8_unknown_command_reply_witness :
    MessageHandler exampleBot exampleSession (exampleMessage "<@1> unknown".toList) =
      { events := [.send "c".toList
          ("command not found: `".toList ++ "unknown".toList ++ "`".toList)],
        result := .returned } :=
  C8_unknown_command_reply exampleBot exampleSession (exampleMessage "<@1> unknown".toList)
    "unknown".toList [] (by decide) (by decide) (by decide) (by rfl)

/-- C9, as stated, fails: for the content `<@1>` (no command behind the
mention) the one reply is the error text alone, which is not the error text
followed by the help menu, the text that `HelpError` of bot.go sends. -/
theorem C9_counterexample :
    findArgs "<@1>".toList [exampleSession.User.Mention] =
        .ok { argv := none, err := some errNoCommand } ∧
      MessageHandler exampleBot exampleSession (exampleMessage "<@1>".toList) =
        { events := [.send "c".toList errNoCommand], result := .returned } ∧
      MessageHandler exampleBot exampleSession (exampleMessage "<@1>".toList) ≠
        { events := HelpError exampleBot (exampleMessage "<@1>".toList) errNoCommand,
          result := .returned } := by
  decide

/-- C9 (amended): when a ready bot receives, from another user, a message for
which `findArgs` behind the mention of the session's user returns an error,
`MessageHandler` sends exactly one message, to the channel of the message,
whose text is the error text, and invokes no action. -/
theorem C9_tokenize_error_reply (bot : Bot) (s : Session) (m : Message)
    (argv : Option (List Str)) (err : Str) (hinit : bot.initialized = true)
    (hid : s.User.ID ≠ m.Author.ID)
    (hargs : findArgs m.Content [s.User.Mention] = .ok { argv := argv, err := some err }) :
    MessageHandler bot s m = { events := [.send m.ChannelID err], result := .returned } := by
  unfold MessageHandler
  simp [hinit, hid, hargs]

/-- C9, witness: a group that is never closed. -/
theorem C9_tokenize_error_reply_witness :
    MessageHandler exampleBot exampleSession (exampleMessage "<@1> greet `John".toList) =
      { events := [.send "c".toList "mismatched backquotes ``(`)``".toList],
        result := .returned } :=
  C9_tokenize_error_reply exampleBot exampleSession (exampleMessage "<@1> greet `John".toList)
    none errMismatched (by decide) (by decide) (by decide)

/-- C10, the code at the failing input: `greet` declares no flags, so parsing
`-x John` fails with `flag provided but not defined`; `MessageHandler` drops
that error, sends nothing, and invokes the action of `greet` with the
arguments left over. -/
theorem C10_action_runs_after_flag_error :
    (exampleBot.lookup "greet".toList).map (fun c => c.Flags.Parse ["-x".toList, "John".toList]) =
        some (.returned (some (.notDefined "x".toList)) ["John".toList]) ∧
      MessageHandler exampleBot exampleSession (exampleMessage "<@1> greet -x John".toList) =
        { events := [.invoke "greet".toList ["John".toList]], result := .returned } := by
  decide

/-! ## Field lists: groups, plain fields and open groups -/

theorem foldl_groupStep_closeLast (l : List Str) (g : Str) (argv : List Str) (hne : l ≠ [])
    (h : ∀ w ∈ l, backquote ∉ w) :
    (closeLast l).foldl groupStep { grouped := true, group := g, argv := argv } =
      { grouped := false, group := [], argv := argv ++ [g ++ Join l [Char.ofNat 32]] } := by
  induction l generalizing g with
  | nil => exact absurd rfl hne
  | cons w l ih =>
    cases l with
    | nil =>
      simp only [closeLast, List.foldl_cons, List.foldl_nil]
      rw [groupStep_close _ _ rfl]
      rfl
    | cons w₂ rest =>
      have hw : backquote ∉ w := h w (List.mem_cons_self _ _)
      rw [show closeLast (w :: w₂ :: rest) = w :: closeLast (w₂ :: rest) from rfl,
        List.foldl_cons, groupStep_mid _ _ rfl (getLast?_ne_of_not_mem hw),
        ih _ (List.cons_ne_nil _ _) (fun a ha => h a (List.mem_cons_of_mem _ ha)),
        Join_cons_of_ne_nil _ _ _ (List.cons_ne_nil _ _)]
      simp

/-- Outside a group: fields without backquotes, the first given a leading and
the last a trailing backquote, become one token, joined by single spaces. -/
theorem foldl_groupStep_run (run : List Str) (argv : List Str) (hne : run ≠ [])
    (h : ∀ w ∈ run, backquote ∉ w) :
    (closeLast (openFirst run)).foldl groupStep { grouped := false, group := [], argv := argv } =
      { grouped := false, group := [], argv := argv ++ [Join run [Char.ofNat 32]] } := by
  cases run with
  | nil => exact absurd rfl hne
  | cons w l =>
    have hw : backquote ∉ w := h w (List.mem_cons_self _ _)
    cases l with
    | nil =>
      simp only [openFirst, closeLast, List.foldl_cons, List.foldl_nil]
      rw [show (backquote :: w) ++ [backquote] = backquote :: (w ++ [backquote]) from rfl,
        groupStep_both _ _ rfl]
      rfl
    | cons w₂ rest =>
      rw [show closeLast (openFirst (w :: w₂ :: rest)) =
          (backquote :: w) :: closeLast (w₂ :: rest) from rfl,
        List.foldl_cons, groupStep_open _ _ rfl (getLast?_ne_of_not_mem hw),
        foldl_groupStep_closeLast _ _ _ (List.cons_ne_nil _ _)
          (fun a ha => h a (List.mem_cons_of_mem _ ha)),
        Join_cons_of_ne_nil _ _ _ (List.cons_ne_nil _ _)]
      simp

/-- Outside a group, a field that begins with a backquote opens a group that
stays open when no field from there on ends with a backquote. -/
theorem foldl_groupStep_unclosed (rest : List Str) (argv : List Str)
    (hopen : ∃ f ∈ rest, f.head? = some backquote)
    (hclose : ∀ f ∈ rest, f.getLast? ≠ some backquote) :
    (rest.foldl groupStep { grouped := false, group := [], argv := argv }).grouped = true := by
  induction rest generalizing argv with
  | nil =>
    obtain ⟨f, hf, _⟩ := hopen
    simp at hf
  | cons a l ih =>
    rw [List.foldl_cons]
    by_cases ha : a.head? = some backquote
    · obtain ⟨x, rfl⟩ : ∃ x, a = backquote :: x := by
        cases a with
        | nil => simp at ha
        | cons c x => exact ⟨x, by simp at ha; rw [ha]⟩
      have hx : x.getLast? ≠ some backquote := by
        have h1 := hclose _ (List.mem_cons_self _ l)
        cases x with
        | nil => simp
        | cons d ds => simpa using h1
      rw [groupStep_open _ _ rfl hx]
      exact foldl_groupStep_open l _ rfl (fun b hb => hclose b (List.mem_cons_of_mem _ hb))
    · rw [groupStep_plain _ _ rfl ha]
      apply ih
      · obtain ⟨f, hf, hh⟩ := hopen
        rcases List.mem_cons.mp hf with rfl | hf
        · exact absurd hh ha
        · exact ⟨f, hf, hh⟩
      · exact fun b hb => hclose b (List.mem_cons_of_mem _ hb)

/-- An error of `groupArgs` comes with nil tokens. -/
theorem groupArgs_err_argv (fields : List Str) (r : ArgsResult) (h : groupArgs fields = .ok r)
    (herr : r.err ≠ none) : r.argv = none := by
  cases fields with
  | nil => simp [groupArgs] at h
  | cons f0 rest =>
    rw [groupArgs_cons _ _ _ rfl] at h
    split at h
    · injection h with h
      subst h
      rfl
    · injection h with h
      subst h
      exact absurd rfl herr

/-- On a non-empty field list `groupArgs` returns, with nil tokens or with at
least one token. -/
theorem groupArgs_cons_ok (f0 : Str) (rest : List Str) :
    ∃ r, groupArgs (f0 :: rest) = .ok r ∧
      (r.argv = none ∨ ∃ a tokens, r.argv = some (a :: tokens)) := by
  obtain ⟨ext, hext⟩ := foldl_groupStep_argv rest { grouped := false, group := [], argv := [f0] }
  rw [groupArgs_cons _ _ _ rfl]
  split
  · exact ⟨_, rfl, Or.inl rfl⟩
  · exact ⟨_, rfl, Or.inr ⟨f0, ext, by rw [hext]; rfl⟩⟩

/-- The function `findArgs` always returns, with nil tokens or with at least one
token. -/
theorem findArgs_ok (text : Str) (prefixes : List Str) :
    ∃ r, findArgs text prefixes = .ok r ∧
      (r.argv = none ∨ ∃ a tokens, r.argv = some (a :: tokens)) := by
  unfold findArgs
  cases findFields text prefixes with
  | none => exact ⟨_, rfl, Or.inl rfl⟩
  | some fields =>
    cases fields with
    | nil => exact ⟨_, rfl, Or.inl rfl⟩
    | cons f0 rest => simpa using groupArgs_cons_ok f0 rest

/-- C16: a field list `w0, pre, run, post` of words, in which the first field
of the non-empty `run` gets a leading backquote and its last field a trailing
one (the same field when the run has one field), is grouped by `groupArgs` into
`w0`, the fields of `pre`, the fields of `run` joined by single spaces without
the backquotes, and the fields of `post`.  The run starts at the index
`i = pre.length + 1` and ends at `j = pre.length + run.length`. -/
theorem C16_groupArgs_groups_run (w0 : Str) (pre run post : List Str) (hrun : run ≠ [])
    (hw : ∀ w ∈ w0 :: (pre ++ run ++ post), isWord w = true) :
    groupArgs (w0 :: (pre ++ closeLast (openFirst run) ++ post)) =
      .ok { argv := some (w0 :: (pre ++ [Join run " ".toList] ++ post)), err := none } := by
  have hpre : ∀ w ∈ pre, backquote ∉ w := fun w h => isWord_no_backquote
    (hw w (List.mem_cons_of_mem _ (List.mem_append_left _ (List.mem_append_left _ h))))
  have hr : ∀ w ∈ run, backquote ∉ w := fun w h => isWord_no_backquote
    (hw w (List.mem_cons_of_mem _ (List.mem_append_left _ (List.mem_append_right _ h))))
  have hpost : ∀ w ∈ post, backquote ∉ w := fun w h => isWord_no_backquote
    (hw w (List.mem_cons_of_mem _ (List.mem_append_right _ h)))
  have hloop : (pre ++ closeLast (openFirst run) ++ post).foldl groupStep
      { grouped := false, group := [], argv := [w0] } =
      { grouped := false, group := [],
        argv := w0 :: (pre ++ [Join run [Char.ofNat 32]] ++ post) } := by
    rw [List.foldl_append, List.foldl_append,
      foldl_groupStep_plain pre _ (fun a ha => head?_ne_of_not_mem (hpre a ha)),
      foldl_groupStep_run run _ hrun hr,
      foldl_groupStep_plain post _ (fun a ha => head?_ne_of_not_mem (hpost a ha))]
    simp
  rw [groupArgs_cons _ _ _ hloop, spStr_eq]
  simp

/-- C16, witness: the fields `greet a `John Paul Smith` b`. -/
theorem C16_groupArgs_groups_run_witness :
    closeLast (openFirst ["John".toList, "Paul".toList, "Smith".toList]) =
        ["`John".toList, "Paul".toList, "Smith`".toList] ∧
      groupArgs ("greet".toList :: (["a".toList] ++
          closeLast (openFirst ["John".toList, "Paul".toList, "Smith".toList]) ++
          ["b".toList])) =
        .ok { argv := some ("greet".toList :: (["a".toList] ++
                [Join ["John".toList, "Paul".toList, "Smith".toList] " ".toList] ++
                ["b".toList])),
              err := none } :=
  ⟨by decide,
    C16_groupArgs_groups_run "greet".toList ["a".toList]
      ["John".toList, "Paul".toList, "Smith".toList] ["b".toList] (by decide) (by decide)⟩

/-- C17: when no field after the first begins with a backquote, `groupArgs`
returns the field list as it is. -/
theorem C17_groupArgs_plain_fields (f0 : Str) (rest : List Str)
    (h : ∀ f ∈ rest, f.head? ≠ some backquote) :
    groupArgs (f0 :: rest) = .ok { argv := some (f0 :: rest), err := none } := by
  rw [groupArgs_cons _ _ _ (foldl_groupStep_plain rest [f0] h)]
  simp

/-- C17, witness: fields that hold or end with backquotes, and a first field
that begins with one. -/
theorem C17_groupArgs_plain_fields_witness :
    groupArgs ["`cmd".toList, "a`b".toList, "c`".toList, "d".toList] =
      .ok { argv := some ["`cmd".toList, "a`b".toList, "c`".toList, "d".toList],
            err := none } :=
  C17_groupArgs_plain_fields "`cmd".toList ["a`b".toList, "c`".toList, "d".toList]
    (by decide)

/-- C18: when some field after the first begins with a backquote and no field
after the first ends with one, `groupArgs` returns the mismatched-backquotes
error and nil tokens; and every error of `groupArgs` and of `findArgs` comes
with nil tokens. -/
theorem C18_errors_have_no_tokens :
    (∀ (f0 : Str) (rest : List Str), (∃ f ∈ rest, f.head? = some backquote) →
        (∀ f ∈ rest, f.getLast? ≠ some backquote) →
        groupArgs (f0 :: rest) = .ok { argv := none, err := some errMismatched }) ∧
      (∀ (fields : List Str) (r : ArgsResult), groupArgs fields = .ok r → r.err ≠ none →
        r.argv = none) ∧
      (∀ (text : Str) (prefixes : List Str) (r : ArgsResult),
        findArgs text prefixes = .ok r → r.err ≠ none → r.argv = none) := by
  refine ⟨?_, groupArgs_err_argv, ?_⟩
  · intro f0 rest hopen hclose
    rw [groupArgs_cons _ _ _ rfl, foldl_groupStep_unclosed rest [f0] hopen hclose]
    rfl
  · intro text prefixes r h herr
    unfold findArgs at h
    split at h
    · injection h with h
      subst h
      exact absurd rfl herr
    · split at h
      · injection h with h
        subst h
        rfl
      · exact groupArgs_err_argv _ r h herr

/-- C18, witness: the fields `cmd a `b c`, and the text `<@1> cmd `b`. -/
theorem C18_errors_have_no_tokens_witness :
    groupArgs ["cmd".toList, "a".toList, "`b".toList, "c".toList] =
        .ok { argv := none, err := some errMismatched } ∧
      (ArgsResult.mk none (some errMismatched)).argv = none ∧
      (ArgsResult.mk none (some errNoCommand)).argv = none :=
  ⟨C18_errors_have_no_tokens.1 "cmd".toList ["a".toList, "`b".toList, "c".toList]
      ⟨"`b".toList, by decide, by decide⟩ (by decide),
    C18_errors_have_no_tokens.2.1 ["cmd".toList, "`b".toList] _ (by decide) (by decide),
    C18_errors_have_no_tokens.2.2 "<@1>".toList ["<@1>".toList] _ (by decide) (by decide)⟩

/-! ## Panics of `MessageHandler` -/

/-- A ready bot ends a message by returning, or in `Parse` under `ExitOnError`
or `PanicOnError`. -/
theorem MessageHandler_ready_result (bot : Bot) (s : Session) (m : Message)
    (h : bot.initialized = true) :
    (MessageHandler bot s m).result = .returned ∨
      (∃ code, (MessageHandler bot s m).result = .exited code) ∨
      (∃ e, (MessageHandler bot s m).result = .panicked (.flag e)) := by
  unfold MessageHandler
  simp only [h, Bool.not_true, Bool.false_eq_true, if_false]
  by_cases hid : s.User.ID = m.Author.ID
  · simp [hid]
  · simp only [hid, if_false]
    obtain ⟨r, hr, hargv⟩ := findArgs_ok m.Content [s.User.Mention]
    rw [hr]
    obtain ⟨argv, err⟩ := r
    cases err with
    | some e => exact Or.inl (by simp)
    | none =>
      rcases hargv with hnil | ⟨a, tokens, hcons⟩
      · simp only at hnil
        subst hnil
        exact Or.inl rfl
      · simp only at hcons
        subst hcons
        dsimp only
        cases bot.lookup a with
        | none => exact Or.inl rfl
        | some command =>
          dsimp only
          cases command.Flags.Parse tokens with
          | returned e args => exact Or.inl rfl
          | exited code => exact Or.inr (Or.inl ⟨code, rfl⟩)
          | panicked e => exact Or.inr (Or.inr ⟨e, rfl⟩)

/-- C20: `findArgs` returns for every text and prefix list (the panic of
`fields[0]` in `groupArgs` is never reached), its token list is nil or
non-empty, and `MessageHandler` never panics on `argv[0]`. -/
theorem C20_findArgs_total :
    (∀ (text : Str) (prefixes : List Str), ∃ r, findArgs text prefixes = .ok r ∧
        (r.argv = none ∨ ∃ a tokens, r.argv = some (a :: tokens))) ∧
      (∀ (bot : Bot) (s : Session) (m : Message),
        (MessageHandler bot s m).result ≠ .panicked (.text panicIndex)) := by
  refine ⟨findArgs_ok, ?_⟩
  intro bot s m
  cases hinit : bot.initialized
  · have : (MessageHandler bot s m).result = .panicked (.text ErrNotInitialized) := by
      unfold MessageHandler
      simp [hinit]
    rw [this]
    decide
  · rcases MessageHandler_ready_result bot s m hinit with h | ⟨c, h⟩ | ⟨e, h⟩ <;>
      rw [h] <;> intro hc <;> cases hc

/-! ## Help texts -/

theorem Help_eq (bot : Bot) :
    bot.Help = helpHeader bot ++ (commandLines bot).flatten ++ "\n```".toList := rfl

/-- C11, as stated, fails: the example bot, whose map is visited in the order
`help`, `greet`, lists `help` before `greet` although `greet` is the smaller
name; and the same commands visited in the other order give another text. -/
theorem C11_counterexample :
    "greet".toList < "help".toList ∧
      commandLines exampleBot =
        [commandLine "help".toList HelpCommand.Description,
         commandLine "greet".toList "says hello".toList] ∧
      exampleBotSwapped.Commands.Perm exampleBot.Commands ∧
      exampleBotSwapped.Help ≠ exampleBot.Help := by
  refine ⟨by decide, by decide, List.reverse_perm _, ?_⟩
  rw [Help_eq, Help_eq]
  decide

/-- C11 (amended): the help menu holds exactly one line per command of
`bot.Commands`, in the order in which the iteration over the map visits the
commands; the same commands visited in another order give the same lines in
another order. -/
theorem C11_Help_lines (bot : Bot) :
    bot.Help = helpHeader bot ++ (commandLines bot).flatten ++ "\n```".toList ∧
      (commandLines bot).length = bot.Commands.length ∧
      (∀ i (h : i < bot.Commands.length),
        (commandLines bot)[i]? =
          some (commandLine (bot.Commands.get ⟨i, h⟩).1 (bot.Commands.get ⟨i, h⟩).2.Description)) ∧
      (∀ other : Bot, other.Commands.Perm bot.Commands →
        (commandLines other).Perm (commandLines bot)) := by
  refine ⟨rfl, by simp [commandLines], ?_, ?_⟩
  · intro i h
    simp [commandLines, List.getElem?_eq_getElem h]
  · intro other hperm
    exact hperm.map _

/-- C11, witness: the example bot and the same commands in the other order. -/
theorem C11_Help_lines_witness :
    (commandLines exampleBot).length = 2 ∧
      (commandLines exampleBot)[1]? = some (commandLine "greet".toList "says hello".toList) ∧
      (commandLines exampleBotSwapped).Perm (commandLines exampleBot) :=
  ⟨(C11_Help_lines exampleBot).2.1,
    (C11_Help_lines exampleBot).2.2.1 1 (by decide),
    (C11_Help_lines exampleBot).2.2.2 exampleBotSwapped (List.reverse_perm _)⟩

/-- C12: `HelpAction` sends exactly one message, to the channel of the
message, and returns no error: the help menu when there are no arguments, the
usage of the first argument otherwise; and the usage of a name that is not a
key of `bot.Commands` is the text `command not found` with the name in
backquotes. -/
theorem C12_HelpAction :
    (∀ (bot : Bot) (s : Session) (m : Message),
        HelpAction bot [] s m = { sent := [(m.ChannelID, bot.Help)], err := none }) ∧
      (∀ (bot : Bot) (a : Str) (rest : List Str) (s : Session) (m : Message),
        HelpAction bot (a :: rest) s m =
          { sent := [(m.ChannelID, bot.Usage a)], err := none }) ∧
      (∀ (bot : Bot) (name : Str), bot.lookup name = none →
        bot.Usage name = "command not found: `".toList ++ name ++ "`".toList) := by
  refine ⟨fun _ _ _ => rfl, fun _ _ _ _ _ => rfl, ?_⟩
  intro bot name h
  unfold Bot.Usage
  rw [h]
  rfl

/-- C12, witness: the usage of the unknown name `unknown` in the example bot. -/
theorem C12_HelpAction_witness :
    HelpAction exampleBot ["unknown".toList] exampleSession (exampleMessage []) =
        { sent := [("c".toList, exampleBot.Usage "unknown".toList)], err := none } ∧
      exampleBot.Usage "unknown".toList =
        "command not found: `".toList ++ "unknown".toList ++ "`".toList :=
  ⟨C12_HelpAction.2.1 exampleBot "unknown".toList [] exampleSession (exampleMessage []),
    C12_HelpAction.2.2 exampleBot "unknown".toList (by rfl)⟩

/-- C13: a ready bot that receives a message written by the user of its own
session sends nothing and invokes no action, whatever the content. -/
theorem C13_own_messages_are_ignored (bot : Bot) (s : Session) (m : Message)
    (hinit : bot.initialized = true) (hid : s.User.ID = m.Author.ID) :
    MessageHandler bot s m = { events := [], result := .returned } := by
  unfold MessageHandler
  simp [hinit, hid]

/-- C13, witness: the bot user itself writes `<@1> greet John`. -/
theorem C13_own_messages_are_ignored_witness :
    MessageHandler exampleBot exampleSession
        { ChannelID := "c".toList, Content := "<@1> greet John".toList,
          Author := exampleSession.User } =
      { events := [], result := .returned } :=
  C13_own_messages_are_ignored exampleBot exampleSession
    { ChannelID := "c".toList, Content := "<@1> greet John".toList,
      Author := exampleSession.User } (by decide) (by decide)

/-- C14: a bot that is not initialized panics with `ErrNotInitialized` on every
message, before it sends a message or invokes an action; `MessageHandler` ends
with that panic only when the bot is not initialized; and a bot on which
`ReadyHandler` has run is initialized. -/
theorem C14_not_initialized_panics :
    (∀ (bot : Bot) (s : Session) (m : Message), bot.initialized = false →
        MessageHandler bot s m =
          { events := [], result := .panicked (.text ErrNotInitialized) }) ∧
      (∀ (bot : Bot) (s : Session) (m : Message),
        (MessageHandler bot s m).result = .panicked (.text ErrNotInitialized) ↔
          bot.initialized = false) ∧
      (∀ (bot : Bot) (r s : Session) (m : Message),
        (MessageHandler (ReadyHandler bot r) s m).result ≠
          .panicked (.text ErrNotInitialized)) := by
  have h1 : ∀ (bot : Bot) (s : Session) (m : Message), bot.initialized = false →
      MessageHandler bot s m =
        { events := [], result := .panicked (.text ErrNotInitialized) } := by
    intro bot s m h
    unfold MessageHandler
    simp [h]
  have h2 : ∀ (bot : Bot) (s : Session) (m : Message), bot.initialized = true →
      (MessageHandler bot s m).result ≠ .panicked (.text ErrNotInitialized) := by
    intro bot s m h
    rcases MessageHandler_ready_result bot s m h with h | ⟨c, h⟩ | ⟨e, h⟩ <;>
      rw [h] <;> intro hc <;> cases hc
  refine ⟨h1, ?_, ?_⟩
  · intro bot s m
    constructor
    · intro h
      cases hinit : bot.initialized
      · rfl
      · exact absurd h (h2 bot s m hinit)
    · intro h
      rw [h1 bot s m h]
  · intro bot r s m
    exact h2 _ s m rfl

/-- C14, witness: the bot of `NewBot`, before and after `ReadyHandler`. -/
theorem C14_not_initialized_panics_witness :
    MessageHandler NewBot exampleSession (exampleMessage "<@1> help".toList) =
        { events := [], result := .panicked (.text ErrNotInitialized) } ∧
      (MessageHandler (ReadyHandler NewBot exampleSession) exampleSession
          (exampleMessage "<@1> help".toList)).result ≠
        .panicked (.text ErrNotInitialized) :=
  ⟨C14_not_initialized_panics.1 NewBot exampleSession (exampleMessage "<@1> help".toList)
      (by decide),
    C14_not_initialized_panics.2.2 NewBot exampleSession exampleSession
      (exampleMessage "<@1> help".toList)⟩

/-- C15, as stated, fails in the text of the fallback: for a command without
flags, `help` returns the sentence behind two spaces, which is not the text
`No options defined.` itself. -/
theorem C15_counterexample :
    HelpCommand.Flags.formal = [] ∧
      help HelpCommand.Flags = "  No options defined.".toList ∧
      help HelpCommand.Flags ≠ "No options defined.".toList :=
  ⟨rfl, by decide, by decide⟩

/-- C15 (amended): for a key `name` of `bot.Commands`, `Usage(name)` contains
the description of the command and the usage line, two spaces followed by
`bot.prefix`, the name, ` [options] ` and the usage of the command; and when
the command declares no flags, `help` returns `No options defined.` behind two
spaces. -/
theorem C15_Usage_text (bot : Bot) (name : Str) (command : Command)
    (h : bot.lookup name = some command) :
    command.Description <:+: bot.Usage name ∧
      ("  ".toList ++ bot.prefix_ ++ name ++ " [options] ".toList ++ command.Usage) <:+:
        bot.Usage name ∧
      (command.Flags.formal = [] → help command.Flags = "  No options defined.".toList) := by
  have hu : bot.Usage name =
      "\nShowing usage for subcommand:\n```\nDESCRIPTION:\n  ".toList ++
        command.Description ++ "\n\nUSAGE:\n  ".toList ++ (bot.prefix_ ++ name) ++
        " [options] ".toList ++ command.Usage ++ "\n\nOPTIONS:\n".toList ++
        help command.Flags ++ "```".toList := by
    unfold Bot.Usage
    rw [h]
  refine ⟨?_, ?_, ?_⟩
  · rw [hu]
    exact ⟨"\nShowing usage for subcommand:\n```\nDESCRIPTION:\n  ".toList,
      "\n\nUSAGE:\n  ".toList ++ (bot.prefix_ ++ name) ++ " [options] ".toList ++
        command.Usage ++ "\n\nOPTIONS:\n".toList ++ help command.Flags ++ "```".toList,
      by simp only [List.append_assoc]⟩
  · rw [hu]
    refine ⟨"\nShowing usage for subcommand:\n```\nDESCRIPTION:\n  ".toList ++
        command.Description ++ "\n\nUSAGE:\n".toList,
      "\n\nOPTIONS:\n".toList ++ help command.Flags ++ "```".toList, ?_⟩
    rw [show "\n\nUSAGE:\n  ".toList = "\n\nUSAGE:\n".toList ++ "  ".toList from rfl]
    simp only [List.append_assoc]
  · intro hf
    unfold help FlagSet.PrintDefaults
    rw [hf]
    rfl

/-- C15, witness: the usage of `greet` in the example bot. -/
theorem C15_Usage_text_witness :
    "says hello".toList <:+: exampleBot.Usage "greet".toList ∧
      ("  ".toList ++ "@Bot ".toList ++ "greet".toList ++ " [options] ".toList ++
        "name".toList) <:+: exampleBot.Usage "greet".toList :=
  ⟨(C15_Usage_text exampleBot "greet".toList
      { Usage := "name".toList, Description := "says hello".toList,
        Flags := { name := [], formal := [], errorHandling := .ContinueOnError },
        Action := quietAction } (by rfl)).1,
    (C15_Usage_text exampleBot "greet".toList
      { Usage := "name".toList, Description := "says hello".toList,
        Flags := { name := [], formal := [], errorHandling := .ContinueOnError },
        Action := quietAction } (by rfl)).2.1⟩

/-- C19, the code at the failing input: `ReadyHandler` sets the prefix and the
flag `initialized`, and leaves `Commands` as it was.  On the bot of `NewBot`
and the user `Bot`, the loop initialises a copy of the flag set of `help` with
the name `@Bot  help`, and the flag set stored in `Commands` keeps its empty
name. -/
theorem C19_ReadyHandler_keeps_flag_sets :
    (∀ (bot : Bot) (s : Session),
        (ReadyHandler bot s).prefix_ = "@".toList ++ s.User.Username ++ " ".toList ∧
        (ReadyHandler bot s).initialized = true ∧
        (ReadyHandler bot s).Commands = bot.Commands) ∧
      (initCopies (ReadyHandler NewBot exampleSession).prefix_ NewBot.Commands).map
          (fun kv => (kv.1, kv.2.Flags.name)) = [("help".toList, "@Bot  help".toList)] ∧
      (ReadyHandler NewBot exampleSession).Commands.map (fun kv => (kv.1, kv.2.Flags.name)) =
        [("help".toList, [])] := by
  refine ⟨fun _ _ => ⟨rfl, rfl, rfl⟩, by decide, by decide⟩

end CommandHelper
